import Mathlib

/-
Verification of the text-annotation overlay engine of the promptomatic
frontend (OptimizedPrompt component).

The source is JavaScript/React.  Strings are embedded as lists of
characters; the DOM selection API and the component state updates are
embedded as explicit state passing.  Every definition below is a direct
translation of a function of the source, except the two definitions whose
doc comments say they follow the specification text (the reference scan
and the absolute-offset walk), kept for comparison with the code.
-/

namespace Promptomatic

/-- A committed comment record, as built in handleCommentSubmit:
fields id, text (the selected substring), startOffset, endOffset,
comment (the typed feedback) and created_at. -/
structure Annotation where
  id : Nat
  text : List Char
  startOffset : Nat
  endOffset : Nat
  comment : List Char
  created_at : Nat
deriving DecidableEq, Repr

/-- A rendered run: either a plain text span or a highlighted span keyed
by the id of the annotation it displays. -/
inductive Segment where
  | plain (text : List Char)
  | highlighted (text : List Char) (annotationId : Nat)
deriving DecidableEq, Repr

/-- The text content of a rendered run. -/
def Segment.text : Segment → List Char
  | .plain t => t
  | .highlighted t _ => t

/-- JavaScript String.prototype.slice with non-negative arguments:
the characters from position s up to (excluding) position e, both
clamped to the length of the string. -/
def jsSlice (l : List Char) (s e : Nat) : List Char :=
  (l.take e).drop s

/-- Whitespace for String.prototype.trim: space, tab, line feed,
carriage return, vertical tab, form feed and no-break space. -/
def isJsWs (c : Char) : Bool :=
  c = ' ' || c = '\t' || c = '\n' || c = '\r' ||
  c = (Char.ofNat 11) || c = (Char.ofNat 12) || c = (Char.ofNat 160)

/-- JavaScript String.prototype.trim: remove leading and trailing
whitespace. -/
def jsTrim (l : List Char) : List Char :=
  ((l.dropWhile isJsWs).reverse.dropWhile isJsWs).reverse

/-- Ascending comparison on startOffset, the comparator subtracting
b.startOffset from a.startOffset used by the renderer sort. -/
def startLE (a b : Annotation) : Prop :=
  a.startOffset ≤ b.startOffset

instance : DecidableRel startLE :=
  fun a b => inferInstanceAs (Decidable (a.startOffset ≤ b.startOffset))

/-- The sortedComments view of the renderer:
a stable ascending sort of the comment array by startOffset
(Array.prototype.sort is stable, and insertion sort with a
non-strict comparison is the stable sort). -/
def sortByStart (comments : List Annotation) : List Annotation :=
  List.insertionSort startLE comments

/-- The rendered runs of a bare string child: React renders a non-empty
string as one text node and an empty string as nothing. -/
def stringRuns (s : List Char) : List Segment :=
  if s = [] then [] else [Segment.plain s]

/-- The loop body of renderTextWithHighlights: lastIndex starts at 0;
for each comment, push a plain span for the gap when
comment.startOffset is greater than lastIndex, push a highlighted span
for the slice from startOffset to endOffset keyed by the comment id,
and set lastIndex to endOffset; after the loop push the remainder when
lastIndex is below the text length. -/
def renderPieces (optimizedText : List Char) : Nat → List Annotation → List Segment
  | lastIndex, [] =>
      if lastIndex < optimizedText.length then
        [Segment.plain (jsSlice optimizedText lastIndex optimizedText.length)]
      else []
  | lastIndex, c :: rest =>
      (if c.startOffset > lastIndex then
        [Segment.plain (jsSlice optimizedText lastIndex c.startOffset)]
      else []) ++
      Segment.highlighted (jsSlice optimizedText c.startOffset c.endOffset) c.id ::
        renderPieces optimizedText c.endOffset rest

/-- renderTextWithHighlights of the OptimizedPrompt component: when the
comment list is empty it returns the raw text (a single plain run, or
nothing for the empty string); otherwise it runs the scan loop over the
comments sorted ascending by startOffset. -/
def renderTextWithHighlights (optimizedText : List Char) (comments : List Annotation) :
    List Segment :=
  if comments = [] then stringRuns optimizedText
  else renderPieces optimizedText 0 (sortByStart comments)

/-- The reference renderer, from the specification text: a single
left-to-right scan with a cursor initialized to 0; for each annotation
in ascending offset order, a Plain segment for the gap when
startOffset exceeds the cursor, a Highlighted segment for the range
tagged with the annotation id, cursor advanced to endOffset; after the
loop a final Plain segment for the remainder when the cursor is below
the text length. -/
def scanSegments (sourceText : List Char) : Nat → List Annotation → List Segment
  | cursor, [] =>
      if cursor < sourceText.length then
        [Segment.plain (jsSlice sourceText cursor sourceText.length)]
      else []
  | cursor, a :: rest =>
      (if a.startOffset > cursor then
        [Segment.plain (jsSlice sourceText cursor a.startOffset)]
      else []) ++
      Segment.highlighted (jsSlice sourceText a.startOffset a.endOffset) a.id ::
        scanSegments sourceText a.endOffset rest

/-- The reference render of the specification, starting the scan of the
already sorted annotation sequence at cursor 0. -/
def renderScan (sourceText : List Char) (anns : List Annotation) : List Segment :=
  scanSegments sourceText 0 anns

/-- Concatenation of the text of a segment sequence. -/
def segsConcat (segs : List Segment) : List Char :=
  (segs.map Segment.text).flatten

/-- Two annotation ranges do not intersect (touching at a boundary is
allowed). -/
def nonOverlap (a b : Annotation) : Prop :=
  a.endOffset ≤ b.startOffset ∨ b.endOffset ≤ a.startOffset

instance : DecidableRel nonOverlap :=
  fun a b =>
    inferInstanceAs (Decidable (a.endOffset ≤ b.startOffset ∨ b.endOffset ≤ a.startOffset))

/-- The offset invariant of an annotation range over a given source
text: non-empty, not inverted, within bounds. -/
def validRange (text : List Char) (a : Annotation) : Prop :=
  a.startOffset < a.endOffset ∧ a.endOffset ≤ text.length

instance (text : List Char) : DecidablePred (validRange text) :=
  fun a =>
    inferInstanceAs (Decidable (a.startOffset < a.endOffset ∧ a.endOffset ≤ text.length))

/-- The selectedRange state: the selected substring and the offsets
taken from the DOM range object. -/
structure SelectedRange where
  text : List Char
  startOffset : Nat
  endOffset : Nat
deriving DecidableEq, Repr

/-- The component state touched by handleSelection and
handleCommentSubmit: the comment list, the visibility of the comment
box, and the pending selected range. -/
structure UIState where
  comments : List Annotation
  showCommentBox : Bool
  selectedRange : Option SelectedRange
deriving DecidableEq, Repr

/-- A DOM selection as read by handleSelection: the string returned by
selection.toString, and the startOffset and endOffset of the first
range of the selection, which the DOM measures locally to the leaf
text node containing the boundary. -/
structure DomSel where
  str : List Char
  rangeStart : Nat
  rangeEnd : Nat
deriving DecidableEq, Repr

/-- handleSelection of the OptimizedPrompt component: trim the selected
string; when the result is empty, close the comment box and return;
otherwise store the trimmed text together with range.startOffset and
range.endOffset as the selected range and open the comment box. -/
def handleSelection (sel : DomSel) (st : UIState) : UIState :=
  let selectedText := jsTrim sel.str
  if selectedText = [] then { st with showCommentBox := false }
  else
    { st with
        selectedRange :=
          some ⟨selectedText, sel.rangeStart, sel.rangeEnd⟩,
        showCommentBox := true }

/-- The text of the leaf node at a given index of the rendered segment
list (the empty string when the index is out of range). -/
def leafText (segs : List Segment) (leafIndex : Nat) : List Char :=
  ((segs.getD leafIndex (Segment.plain [])).text)

/-- A selection lying inside a single leaf node of the rendered view:
selection.toString is the slice of the leaf text between the two
boundary positions, and the DOM range offsets are the leaf-local
boundary positions themselves. -/
def leafSelection (segs : List Segment) (leafIndex localStart localEnd : Nat) : DomSel :=
  ⟨jsSlice (leafText segs leafIndex) localStart localEnd, localStart, localEnd⟩

/-- Modelled from the spec: the OffsetMapper walk, which is absent from
the sources.  The absolute offset of a leaf-local position is the sum
of the source-text lengths of the rendered segments preceding the leaf
in document order, plus the leaf-local offset. -/
def absoluteOffset (segs : List Segment) (leafIndex localOffset : Nat) : Nat :=
  (((segs.take leafIndex).map (fun s => s.text.length)).sum) + localOffset

/-- The response of the POST handler of the comments endpoint, as
consumed by handleCommentSubmit: the ok flag of the HTTP response, the
success flag and comment id of the decoded body, and the error field
used when ok is false. -/
structure ServerResponse where
  ok : Bool
  success : Bool
  commentId : Nat
  error : List Char
deriving DecidableEq, Repr

/-- handleCommentSubmit of the OptimizedPrompt component, with the
awaited fetch response passed in explicitly.  When the response is not
ok, the thrown error is caught and alerted; when the body reports
success, the new comment record is appended to the comment list.  In
every case the comment box is closed afterwards.  The returned pair is
the new state and the alert message, when one was shown. -/
def handleCommentSubmit (resp : ServerResponse) (sr : SelectedRange)
    (commentText : List Char) (now : Nat) (st : UIState) :
    UIState × Option (List Char) :=
  if resp.ok = false then
    ({ st with showCommentBox := false }, some resp.error)
  else if resp.success = true then
    ({ st with
        comments :=
          st.comments ++
            [⟨resp.commentId, sr.text, sr.startOffset, sr.endOffset, commentText, now⟩],
        showCommentBox := false }, none)
  else
    ({ st with showCommentBox := false }, none)

/-- handleSubmit of the CommentBox component: when the trimmed comment
is non-empty, fire onSubmit with the comment and clear the local
comment text.  The returned pair is the submitted comment, when one
was submitted, and the new local comment text. -/
def commentBoxSubmit (comment : List Char) : Option (List Char) × List Char :=
  if jsTrim comment ≠ [] then (some comment, []) else (none, comment)

/-- The local commit of a successful add: the state updater appends the
new comment record to the end of the comment list. -/
def addLocal (comments : List Annotation) (a : Annotation) : List Annotation :=
  comments ++ [a]

/-- Strict ascending comparison on startOffset. -/
def startLT (a b : Annotation) : Prop :=
  a.startOffset < b.startOffset

instance : IsTotal Annotation startLE :=
  ⟨fun a b => Nat.le_total a.startOffset b.startOffset⟩

instance : IsTrans Annotation startLE :=
  ⟨fun _ _ _ h1 h2 => Nat.le_trans h1 h2⟩

/-- Replace the fields of an annotation that carry no rendering
semantics (the stored selected text, the typed comment and the
timestamp) by arbitrary values, keeping the range and the id. -/
def scrub (f g : Annotation → List Char) (ts : Annotation → Nat)
    (a : Annotation) : Annotation :=
  { a with text := f a, comment := g a, created_at := ts a }

theorem jsTrim_nil : jsTrim [] = [] := rfl

theorem jsTrim_eq_nil_of_ws {l : List Char} (h : ∀ c ∈ l, isJsWs c = true) :
    jsTrim l = [] := by
  unfold jsTrim
  rw [List.dropWhile_eq_nil_iff.2 h]
  simp

theorem segsConcat_nil : segsConcat [] = [] := rfl

theorem segsConcat_cons (s : Segment) (l : List Segment) :
    segsConcat (s :: l) = s.text ++ segsConcat l := by
  simp [segsConcat]

theorem segsConcat_append (l1 l2 : List Segment) :
    segsConcat (l1 ++ l2) = segsConcat l1 ++ segsConcat l2 := by
  simp [segsConcat]

theorem foldl_addLocal (adds : List Annotation) :
    ∀ acc : List Annotation, List.foldl addLocal acc adds = acc ++ adds := by
  induction adds with
  | nil => intro acc; simp [List.foldl]
  | cons a rest ih =>
      intro acc
      simp only [List.foldl, addLocal, ih (acc ++ [a]), List.append_assoc,
        List.singleton_append]

theorem renderPieces_eq_scanSegments (t : List Char) :
    ∀ (l : List Annotation) (c : Nat), renderPieces t c l = scanSegments t c l := by
  intro l
  induction l with
  | nil => intro c; rfl
  | cons a rest ih =>
      intro c
      simp only [renderPieces, scanSegments, ih a.endOffset]

theorem sliceChunk {s e : Nat} (l : List Char) (hse : s ≤ e) :
    jsSlice l s e ++ l.drop e = l.drop s := by
  have h1 : s + (e - s) = e := Nat.add_sub_cancel' hse
  calc (l.take e).drop s ++ l.drop e
      = (l.take (s + (e - s))).drop s ++ l.drop (s + (e - s)) := by rw [h1]
    _ = (l.drop s).take (e - s) ++ (l.drop s).drop (e - s) := by
        rw [List.take_drop, List.drop_drop]
    _ = l.drop s := List.take_append_drop _ _

theorem renderPieces_concat (t : List Char) :
    ∀ (l : List Annotation) (cursor : Nat),
      (∀ a ∈ l, cursor ≤ a.startOffset ∧ a.startOffset < a.endOffset) →
      List.Pairwise nonOverlap l → List.Sorted startLE l →
      segsConcat (renderPieces t cursor l) = t.drop cursor := by
  intro l
  induction l with
  | nil =>
      intro cursor _ _ _
      by_cases hc : cursor < t.length
      · simp only [renderPieces, if_pos hc, segsConcat_cons, segsConcat_nil,
          Segment.text, jsSlice, List.take_length, List.append_nil]
      · simp only [renderPieces, if_neg hc, segsConcat_nil]
        exact (List.drop_eq_nil_of_le (Nat.le_of_not_lt hc)).symm
  | cons a rest ih =>
      intro cursor hinv hno hs
      have hc : cursor ≤ a.startOffset := (hinv a (by simp)).1
      have hae : a.startOffset < a.endOffset := (hinv a (by simp)).2
      have hrest : ∀ b ∈ rest, a.endOffset ≤ b.startOffset := by
        intro b hb
        rcases (List.pairwise_cons.1 hno).1 b hb with h | h
        · exact h
        · exact absurd (Nat.lt_of_lt_of_le (hinv b (by simp [hb])).2 h)
            (Nat.not_lt.2 ((List.pairwise_cons.1 hs).1 b hb))
      have ihr : segsConcat (renderPieces t a.endOffset rest) = t.drop a.endOffset := by
        refine ih a.endOffset (fun b hb => ⟨hrest b hb, (hinv b (by simp [hb])).2⟩)
          (List.pairwise_cons.1 hno).2 (List.pairwise_cons.1 hs).2
      have hchunk : jsSlice t a.startOffset a.endOffset ++ t.drop a.endOffset =
          t.drop a.startOffset := sliceChunk t (Nat.le_of_lt hae)
      by_cases hgap : a.startOffset > cursor
      · simp only [renderPieces, if_pos hgap, List.singleton_append, segsConcat_cons,
          Segment.text, ihr, List.append_assoc, hchunk]
        exact sliceChunk t hc
      · have hceq : cursor = a.startOffset := Nat.le_antisymm hc (Nat.le_of_not_lt hgap)
        subst hceq
        simp only [renderPieces, if_neg (Nat.lt_irrefl _), List.nil_append,
          segsConcat_cons, Segment.text, ihr, hchunk]

/-- Claim C1: the specification requires selection capture to return
absolute offsets into the source text, computed by walking the rendered
segments and accumulating their lengths; for the source text abcdefghij
with an existing annotation over the range from 2 to 5, selecting the
rendered substring fgh (the first three characters of the trailing
plain leaf) must yield offsets 5 and 8.  The code instead stores
range.startOffset and range.endOffset, which are leaf-local: it
returns offsets 0 and 3, while the segment walk of the specification
yields 5 and 8 at the same boundaries.  This contradicts the renderer
of the same component, which slices the source text with these offsets
as if they were absolute. -/
theorem selection_returns_leaf_local_offsets :
    (handleSelection
        (leafSelection
          (renderTextWithHighlights ("abcdefghij".toList)
            [⟨7, ("cde".toList), 2, 5, ("note".toList), 0⟩]) 2 0 3)
        ⟨[⟨7, ("cde".toList), 2, 5, ("note".toList), 0⟩], false, none⟩).selectedRange =
      some ⟨("fgh".toList), 0, 3⟩ ∧
    absoluteOffset
        (renderTextWithHighlights ("abcdefghij".toList)
          [⟨7, ("cde".toList), 2, 5, ("note".toList), 0⟩]) 2 0 = 5 ∧
    absoluteOffset
        (renderTextWithHighlights ("abcdefghij".toList)
          [⟨7, ("cde".toList), 2, 5, ("note".toList), 0⟩]) 2 3 = 8 := by
  refine ⟨?_, ?_, ?_⟩ <;> decide

/-- Claim C6: after any sequence of successful add operations, in any
order, the iteration order consumed by the renderer (the sortedComments
view standing for list of the store) is sorted ascending by
startOffset. -/
theorem list_view_sorted_by_startOffset (adds : List Annotation) :
    List.Sorted startLE (sortByStart (List.foldl addLocal [] adds)) := by
  rw [foldl_addLocal adds [], List.nil_append]
  exact List.sorted_insertionSort startLE adds

/-- Claim C8: an empty or collapsed selection produces no candidate
range: the selected string is empty, so handleSelection leaves the
pending range untouched, closes the comment box, and returns without
an error. -/
theorem empty_selection_no_candidate (sel : DomSel) (st : UIState)
    (h : sel.str = []) :
    handleSelection sel st = { st with showCommentBox := false } := by
  simp [handleSelection, h, jsTrim_nil]

theorem empty_selection_no_candidate_witness :
    handleSelection ⟨[], 0, 0⟩ ⟨[], true, none⟩ = ⟨[], false, none⟩ :=
  empty_selection_no_candidate ⟨[], 0, 0⟩ ⟨[], true, none⟩ rfl

/-- Claim C10: a selection whose text consists only of whitespace is
treated as empty by handleSelection: the string is trimmed before the
non-emptiness check, so no candidate range is produced and the comment
box is closed. -/
theorem whitespace_selection_treated_empty (sel : DomSel) (st : UIState)
    (h : ∀ c ∈ sel.str, isJsWs c = true) :
    handleSelection sel st = { st with showCommentBox := false } := by
  simp [handleSelection, jsTrim_eq_nil_of_ws h]

theorem whitespace_selection_treated_empty_witness :
    handleSelection ⟨(" ".toList) ++ ("\t\n ".toList), 0, 4⟩ ⟨[], true, none⟩ =
      ⟨[], false, none⟩ :=
  whitespace_selection_treated_empty ⟨(" ".toList) ++ ("\t\n ".toList), 0, 4⟩
    ⟨[], true, none⟩ (by decide)

/-- Claim C2: for every source text and every annotation list sorted
ascending by startOffset and pairwise non-overlapping, the renderer
produces exactly the segment sequence of the reference left-to-right
cursor scan of the specification; and on the source text
The quick brown fox with the single annotation from 4 to 9 it produces
the plain run The followed by a space, the highlighted run quick, and
the plain run consisting of a space and brown fox. -/
theorem render_matches_reference_scan :
    (∀ (text : List Char) (comments : List Annotation),
        List.Sorted startLE comments → List.Pairwise nonOverlap comments →
        renderTextWithHighlights text comments = renderScan text comments) ∧
    renderTextWithHighlights ("The quick brown fox".toList)
        [⟨1, ("quick".toList), 4, 9, ("adj".toList), 0⟩] =
      [Segment.plain ("The ".toList),
        Segment.highlighted ("quick".toList) 1,
        Segment.plain (" brown fox".toList)] := by
  constructor
  · intro text comments hs _hno
    by_cases hc : comments = []
    · subst hc
      cases text with
      | nil => rfl
      | cons c cs =>
          simp [renderTextWithHighlights, renderScan, scanSegments, stringRuns,
            jsSlice]
    · rw [renderTextWithHighlights, if_neg hc, renderScan,
        ← renderPieces_eq_scanSegments]
      have : sortByStart comments = comments := hs.insertionSort_eq
      rw [this]
  · decide

theorem render_matches_reference_scan_witness :
    renderTextWithHighlights ("abcdef".toList)
        [⟨3, ("ab".toList), 0, 2, ("x".toList), 0⟩,
          ⟨4, ("de".toList), 3, 5, ("y".toList), 0⟩] =
      renderScan ("abcdef".toList)
        [⟨3, ("ab".toList), 0, 2, ("x".toList), 0⟩,
          ⟨4, ("de".toList), 3, 5, ("y".toList), 0⟩] :=
  render_matches_reference_scan.1 ("abcdef".toList)
    [⟨3, ("ab".toList), 0, 2, ("x".toList), 0⟩,
      ⟨4, ("de".toList), 3, 5, ("y".toList), 0⟩]
    (by decide) (by decide)

/-- Claim C3: round-trip law: for every source text and every valid,
pairwise non-overlapping annotation set, in any order, concatenating
the text of the rendered segments in order yields exactly the source
text. -/
theorem render_round_trip (text : List Char) (comments : List Annotation)
    (hv : ∀ a ∈ comments, validRange text a)
    (hno : List.Pairwise nonOverlap comments) :
    segsConcat (renderTextWithHighlights text comments) = text := by
  by_cases hc : comments = []
  · subst hc
    cases text with
    | nil => rfl
    | cons c cs =>
        simp [renderTextWithHighlights, stringRuns, segsConcat, Segment.text]
  · rw [renderTextWithHighlights, if_neg hc]
    have hperm : List.Perm (sortByStart comments) comments :=
      List.perm_insertionSort startLE comments
    have hsorted : List.Sorted startLE (sortByStart comments) :=
      List.sorted_insertionSort startLE comments
    have hno2 : List.Pairwise nonOverlap (sortByStart comments) :=
      (hperm.pairwise_iff (fun h => h.symm)).2 hno
    have h0 := renderPieces_concat text (sortByStart comments) 0
      (fun a ha => ⟨Nat.zero_le _, (hv a (hperm.mem_iff.1 ha)).1⟩) hno2 hsorted
    rw [h0, List.drop_zero]

theorem render_round_trip_witness :
    segsConcat
        (renderTextWithHighlights ("The quick brown fox".toList)
          [⟨2, ("brown".toList), 10, 15, ("color".toList), 0⟩,
            ⟨1, ("quick".toList), 4, 9, ("adj".toList), 0⟩]) =
      ("The quick brown fox".toList) :=
  render_round_trip ("The quick brown fox".toList)
    [⟨2, ("brown".toList), 10, 15, ("color".toList), 0⟩,
      ⟨1, ("quick".toList), 4, 9, ("adj".toList), 0⟩]
    (by decide) (by decide)

/-- Claim C4 counterexample: with the annotation over the range from 4
to 9 committed, a candidate from 6 to 12 intersects it, yet the commit
path appends it when the persistence call succeeds: the committed list
changes and no error of any kind is signaled, so the claim that add
always returns an overlap error and leaves the store unchanged is
false on the code. -/
theorem overlap_commit_changes_store :
    ¬ nonOverlap ⟨1, ("quick".toList), 4, 9, ("adj".toList), 0⟩
        ⟨2, ("ck brow".toList), 6, 12, ("ovl".toList), 5⟩ ∧
    (handleCommentSubmit ⟨true, true, 2, []⟩ ⟨("ck brow".toList), 6, 12⟩
        ("ovl".toList) 5
        ⟨[⟨1, ("quick".toList), 4, 9, ("adj".toList), 0⟩], true,
          some ⟨("ck brow".toList), 6, 12⟩⟩).1.comments ≠
      [⟨1, ("quick".toList), 4, 9, ("adj".toList), 0⟩] ∧
    (handleCommentSubmit ⟨true, true, 2, []⟩ ⟨("ck brow".toList), 6, 12⟩
        ("ovl".toList) 5
        ⟨[⟨1, ("quick".toList), 4, 9, ("adj".toList), 0⟩], true,
          some ⟨("ck brow".toList), 6, 12⟩⟩).2 = none := by
  refine ⟨?_, ?_, ?_⟩ <;> decide

/-- Claim C4 amended: the add path performs no overlap check: for every
store state and every candidate range, including one that intersects a
committed annotation, a successful persistence response causes the
candidate to be appended to the committed list, and no error is
signaled. -/
theorem add_commits_overlapping_range (resp : ServerResponse)
    (sr : SelectedRange) (c : List Char) (now : Nat) (st : UIState)
    (hok : resp.ok = true) (hsucc : resp.success = true)
    (_hover : ∃ a ∈ st.comments,
      ¬ nonOverlap a ⟨resp.commentId, sr.text, sr.startOffset, sr.endOffset, c, now⟩) :
    (handleCommentSubmit resp sr c now st).1.comments =
      addLocal st.comments
        ⟨resp.commentId, sr.text, sr.startOffset, sr.endOffset, c, now⟩ ∧
    (handleCommentSubmit resp sr c now st).2 = none := by
  simp [handleCommentSubmit, hok, hsucc, addLocal]

theorem add_commits_overlapping_range_witness :
    (handleCommentSubmit ⟨true, true, 2, []⟩ ⟨("ck brow".toList), 6, 12⟩
        ("ovl".toList) 5
        ⟨[⟨1, ("quick".toList), 4, 9, ("adj".toList), 0⟩], true,
          some ⟨("ck brow".toList), 6, 12⟩⟩).1.comments =
      addLocal [⟨1, ("quick".toList), 4, 9, ("adj".toList), 0⟩]
        ⟨2, ("ck brow".toList), 6, 12, ("ovl".toList), 5⟩ ∧
    (handleCommentSubmit ⟨true, true, 2, []⟩ ⟨("ck brow".toList), 6, 12⟩
        ("ovl".toList) 5
        ⟨[⟨1, ("quick".toList), 4, 9, ("adj".toList), 0⟩], true,
          some ⟨("ck brow".toList), 6, 12⟩⟩).2 = none :=
  add_commits_overlapping_range ⟨true, true, 2, []⟩ ⟨("ck brow".toList), 6, 12⟩
    ("ovl".toList) 5
    ⟨[⟨1, ("quick".toList), 4, 9, ("adj".toList), 0⟩], true,
      some ⟨("ck brow".toList), 6, 12⟩⟩
    rfl rfl ⟨⟨1, ("quick".toList), 4, 9, ("adj".toList), 0⟩, by decide⟩

/-- Claim C5 counterexample: a candidate with startOffset equal to
endOffset violates the offset invariant, yet when the persistence call
succeeds the commit path appends it: the committed list changes and no
range error is signaled, so the claim that empty or out-of-bounds
ranges are rejected with a range error is false on the code. -/
theorem empty_range_commit_changes_store :
    ¬ validRange ("abcdefghij".toList) ⟨9, [], 3, 3, ("why".toList), 1⟩ ∧
    (handleCommentSubmit ⟨true, true, 9, []⟩ ⟨[], 3, 3⟩ ("why".toList) 1
        ⟨[], true, some ⟨[], 3, 3⟩⟩).1.comments ≠ [] ∧
    (handleCommentSubmit ⟨true, true, 9, []⟩ ⟨[], 3, 3⟩ ("why".toList) 1
        ⟨[], true, some ⟨[], 3, 3⟩⟩).2 = none := by
  refine ⟨?_, ?_, ?_⟩ <;> decide

/-- Claim C5 amended: the add path performs no range validation: every
candidate range, including an empty one with startOffset equal to
endOffset, and likewise inverted or out-of-bounds ones, is appended to
the committed list whenever the persistence response reports success,
and no range error is signaled. -/
theorem add_commits_empty_range (resp : ServerResponse) (sr : SelectedRange)
    (c : List Char) (now : Nat) (st : UIState)
    (hok : resp.ok = true) (hsucc : resp.success = true)
    (_hempty : sr.startOffset = sr.endOffset) :
    (handleCommentSubmit resp sr c now st).1.comments =
      addLocal st.comments
        ⟨resp.commentId, sr.text, sr.startOffset, sr.endOffset, c, now⟩ ∧
    (handleCommentSubmit resp sr c now st).2 = none := by
  simp [handleCommentSubmit, hok, hsucc, addLocal]

theorem add_commits_empty_range_witness :
    (handleCommentSubmit ⟨true, true, 9, []⟩ ⟨[], 3, 3⟩ ("why".toList) 1
        ⟨[], true, some ⟨[], 3, 3⟩⟩).1.comments =
      addLocal [] ⟨9, [], 3, 3, ("why".toList), 1⟩ ∧
    (handleCommentSubmit ⟨true, true, 9, []⟩ ⟨[], 3, 3⟩ ("why".toList) 1
        ⟨[], true, some ⟨[], 3, 3⟩⟩).2 = none :=
  add_commits_empty_range ⟨true, true, 9, []⟩ ⟨[], 3, 3⟩ ("why".toList) 1
    ⟨[], true, some ⟨[], 3, 3⟩⟩ rfl rfl rfl

/-- Claim C7 counterexample: when the commit attempt is rejected (the
persistence response is not ok, standing for any store rejection), the
editor does not stay open: the comment box state is set to false, and
the typed comment text was already cleared by the comment box submit
handler at submission time; so the claim that the controller remains
in the Editing state with the typed text preserved is false on the
code. -/
theorem rejected_commit_closes_editor :
    (handleCommentSubmit ⟨false, false, 0, ("overlap".toList)⟩
        ⟨("fgh".toList), 5, 8⟩ ("typo".toList) 3
        ⟨[], true, some ⟨("fgh".toList), 5, 8⟩⟩).1.showCommentBox = false ∧
    commentBoxSubmit ("typo".toList) = (some ("typo".toList), []) := by
  refine ⟨?_, ?_⟩ <;> decide

/-- Claim C7 amended: when a commit attempt is rejected, no partial
state is committed, the annotation list is unchanged and the error
message is surfaced in an alert; but the editor does not stay open,
the comment box is closed unconditionally, and the typed comment text
was already cleared when the comment box form fired its submit. -/
theorem rejected_commit_state (resp : ServerResponse) (sr : SelectedRange)
    (c : List Char) (now : Nat) (st : UIState) (herr : resp.ok = false) :
    (handleCommentSubmit resp sr c now st).1.comments = st.comments ∧
    (handleCommentSubmit resp sr c now st).1.showCommentBox = false ∧
    (handleCommentSubmit resp sr c now st).2 = some resp.error ∧
    (jsTrim c ≠ [] → commentBoxSubmit c = (some c, [])) := by
  refine ⟨?_, ?_, ?_, ?_⟩
  · simp [handleCommentSubmit, herr]
  · simp [handleCommentSubmit, herr]
  · simp [handleCommentSubmit, herr]
  · intro hne; simp [commentBoxSubmit, hne]

theorem rejected_commit_state_witness :
    (handleCommentSubmit ⟨false, false, 0, ("overlap".toList)⟩
        ⟨("fgh".toList), 5, 8⟩ ("typo".toList) 3
        ⟨[], true, some ⟨("fgh".toList), 5, 8⟩⟩).1.comments = [] ∧
    (handleCommentSubmit ⟨false, false, 0, ("overlap".toList)⟩
        ⟨("fgh".toList), 5, 8⟩ ("typo".toList) 3
        ⟨[], true, some ⟨("fgh".toList), 5, 8⟩⟩).1.showCommentBox = false ∧
    (handleCommentSubmit ⟨false, false, 0, ("overlap".toList)⟩
        ⟨("fgh".toList), 5, 8⟩ ("typo".toList) 3
        ⟨[], true, some ⟨("fgh".toList), 5, 8⟩⟩).2 = some ("overlap".toList) ∧
    commentBoxSubmit ("typo".toList) = (some ("typo".toList), []) := by
  have h := rejected_commit_state ⟨false, false, 0, ("overlap".toList)⟩
    ⟨("fgh".toList), 5, 8⟩ ("typo".toList) 3
    ⟨[], true, some ⟨("fgh".toList), 5, 8⟩⟩ rfl
  exact ⟨h.1, h.2.1, h.2.2.1, h.2.2.2 (by decide)⟩

theorem sortByStart_sorted (l : List Annotation) :
    List.Sorted startLE (sortByStart l) :=
  List.sorted_insertionSort startLE l

theorem sortByStart_perm (l : List Annotation) :
    List.Perm (sortByStart l) l :=
  List.perm_insertionSort startLE l

theorem pairwise_startLT_of (s : List Annotation)
    (hs : List.Sorted startLE s) (hno : List.Pairwise nonOverlap s)
    (hv : ∀ a ∈ s, a.startOffset < a.endOffset) :
    List.Pairwise startLT s := by
  refine List.Pairwise.imp_of_mem ?_ (List.Pairwise.and hs hno)
  intro a b ha hb hab
  rcases hab.2 with h | h
  · exact Nat.lt_of_lt_of_le (hv a ha) h
  · exact absurd (Nat.lt_of_lt_of_le (Nat.lt_of_lt_of_le (hv b hb) h) hab.1)
      (Nat.lt_irrefl _)

theorem sortByStart_eq_of_perm (text : List Char) (l1 l2 : List Annotation)
    (hp : List.Perm l1 l2) (hv : ∀ a ∈ l1, validRange text a)
    (hno : List.Pairwise nonOverlap l1) :
    sortByStart l1 = sortByStart l2 := by
  letI : IsAntisymm Annotation startLT :=
    ⟨fun a b h1 h2 => absurd (Nat.lt_trans h1 h2) (Nat.lt_irrefl _)⟩
  have hperm : List.Perm (sortByStart l1) (sortByStart l2) :=
    (sortByStart_perm l1).trans (hp.trans (sortByStart_perm l2).symm)
  have hno2 : List.Pairwise nonOverlap l2 :=
    (hp.pairwise_iff (fun h => h.symm)).1 hno
  have hlt1 : List.Pairwise startLT (sortByStart l1) := by
    refine pairwise_startLT_of _ (sortByStart_sorted l1)
      (((sortByStart_perm l1).pairwise_iff (fun h => h.symm)).2 hno) ?_
    intro a ha
    exact (hv a ((sortByStart_perm l1).mem_iff.1 ha)).1
  have hlt2 : List.Pairwise startLT (sortByStart l2) := by
    refine pairwise_startLT_of _ (sortByStart_sorted l2)
      (((sortByStart_perm l2).pairwise_iff (fun h => h.symm)).2 hno2) ?_
    intro a ha
    exact (hv a (hp.mem_iff.2 ((sortByStart_perm l2).mem_iff.1 ha))).1
  exact List.eq_of_perm_of_sorted hperm hlt1 hlt2

theorem renderPieces_map_scrub (t : List Char) (f g : Annotation → List Char)
    (ts : Annotation → Nat) :
    ∀ (l : List Annotation) (c : Nat),
      renderPieces t c (l.map (scrub f g ts)) = renderPieces t c l := by
  intro l
  induction l with
  | nil => intro c; rfl
  | cons a rest ih =>
      intro c
      simp only [List.map, renderPieces, scrub, ih a.endOffset]

theorem sortByStart_map_scrub (f g : Annotation → List Char)
    (ts : Annotation → Nat) (l : List Annotation) :
    sortByStart (l.map (scrub f g ts)) = (sortByStart l).map (scrub f g ts) :=
  (List.map_insertionSort startLE startLE (scrub f g ts) l
    (fun _ _ _ _ => Iff.rfl)).symm

/-- Claim C9: the renderer is deterministic and insertion-order
independent: two calls on the same inputs produce structurally
identical segment sequences; two comment lists holding the same valid,
non-overlapping annotation set in different insertion orders render
identically; and the output does not depend on the stored selected
text, the typed comment text, or the timestamp of the annotations,
only on their ranges and the id tag carried on each highlighted
segment. -/
theorem render_deterministic_order_independent :
    (∀ (text : List Char) (comments : List Annotation),
        renderTextWithHighlights text comments =
          renderTextWithHighlights text comments) ∧
    (∀ (text : List Char) (l1 l2 : List Annotation),
        List.Perm l1 l2 → (∀ a ∈ l1, validRange text a) →
        List.Pairwise nonOverlap l1 →
        renderTextWithHighlights text l1 = renderTextWithHighlights text l2) ∧
    (∀ (text : List Char) (l : List Annotation)
        (f g : Annotation → List Char) (ts : Annotation → Nat),
        renderTextWithHighlights text (l.map (scrub f g ts)) =
          renderTextWithHighlights text l) := by
  refine ⟨fun _ _ => rfl, ?_, ?_⟩
  · intro text l1 l2 hp hv hno
    by_cases h1 : l1 = []
    · subst h1
      rw [hp.symm.eq_nil]
    · have h2 : l2 ≠ [] := by
        intro h
        subst h
        exact h1 hp.eq_nil
      rw [renderTextWithHighlights, renderTextWithHighlights, if_neg h1, if_neg h2,
        sortByStart_eq_of_perm text l1 l2 hp hv hno]
  · intro text l f g ts
    by_cases h1 : l = []
    · subst h1; rfl
    · have h2 : l.map (scrub f g ts) ≠ [] := by
        simpa using h1
      rw [renderTextWithHighlights, renderTextWithHighlights, if_neg h2, if_neg h1,
        sortByStart_map_scrub, renderPieces_map_scrub]

theorem render_deterministic_order_independent_witness :
    renderTextWithHighlights ("The quick brown fox".toList)
        [⟨2, ("brown".toList), 10, 15, ("color".toList), 0⟩,
          ⟨1, ("quick".toList), 4, 9, ("adj".toList), 0⟩] =
      renderTextWithHighlights ("The quick brown fox".toList)
        [⟨1, ("quick".toList), 4, 9, ("adj".toList), 0⟩,
          ⟨2, ("brown".toList), 10, 15, ("color".toList), 0⟩] :=
  render_deterministic_order_independent.2.1 ("The quick brown fox".toList)
    [⟨2, ("brown".toList), 10, 15, ("color".toList), 0⟩,
      ⟨1, ("quick".toList), 4, 9, ("adj".toList), 0⟩]
    [⟨1, ("quick".toList), 4, 9, ("adj".toList), 0⟩,
      ⟨2, ("brown".toList), 10, 15, ("color".toList), 0⟩]
    (by decide) (by decide) (by decide)

end Promptomatic
